import Mathlib

/-!
Verification development for the chisel request evaluation engine.

The definitions below are shallow embeddings of the Go source:
  * `config.go` (second, current revision in the file): `IsolationLevel`,
    `QueryDef.Validate`, `ArgDef`, `UnmarshalArgDef`, `Expr.Apply`,
    `Mapping.Apply`;
  * `main.go` (`src/unnamed/part_002`): `Params`, `Handler.ParseParams`,
    `Handler.Get`, `Handler.Post`, `opaqueInt`, `opaqueStrings`,
    `opaqueString`, `Handler.reply`, `Handler.computeResponse`,
    `transactionState.CommitOrRollback`, `newTransaction`, `argContext`.

Modelling conventions:
  * Go `interface{}` values that flow through the engine are modelled by the
    inductive `Value` (null / bool / int64 / *big.Int / float64 / string /
    []interface{} / map[string]interface{}).  Finite float64 payloads are
    modelled by their exact rational value.  Go maps are modelled as
    association lists in insertion order (Go map iteration order is
    unspecified; any fixed order is a sound refinement for the properties
    proved here).
  * The gojq expression runtime is a black box per the source contract:
    running a compiled expression on an input and a `$context` variable
    yields a finite list of results, each either a value or an error.
  * Database access (`sqlx.In`, `Rebind`, `QueryContext`, `vdb.ScanRows`,
    `Results.Opaque`) is abstracted into a per-step oracle returning either
    the scanned opaque result value or a failure, exactly as
    `computeResponse` consumes it.
-/

namespace Chisel

mutual

/-- The opaque value universe: Go `interface{}` restricted to the shapes the
engine produces (JSON-compatible values plus `*big.Int`).  `float` models a
finite `float64` by its exact rational value.  Sequences and string-keyed
mappings use the mutual list types below so that all functions over values
are structurally recursive (and hence kernel-computable). -/
inductive Value : Type where
  | null : Value
  | bool (b : Bool) : Value
  | int (n : Int) : Value
  | bigint (n : Int) : Value
  | float (q : Rat) : Value
  | str (s : String) : Value
  | seq (xs : VList) : Value
  | map (fields : VFields) : Value

/-- A sequence of values (`[]interface{}`). -/
inductive VList : Type where
  | nil : VList
  | cons (v : Value) (tl : VList) : VList

/-- A string-keyed mapping (`map[string]interface{}`), as an association
list; keys are unique in every value the engine builds. -/
inductive VFields : Type where
  | nil : VFields
  | cons (k : String) (v : Value) (tl : VFields) : VFields

end

/-- Convert a Lean list of values to a `VList`. -/
def VList.ofList : List Value → VList
  | [] => VList.nil
  | v :: tl => VList.cons v (VList.ofList tl)

/-- Convert a `VList` back to a Lean list. -/
def VList.toList : VList → List Value
  | VList.nil => []
  | VList.cons v tl => v :: VList.toList tl

/-- Convert an association list to `VFields`. -/
def VFields.ofList : List (String × Value) → VFields
  | [] => VFields.nil
  | (k, v) :: tl => VFields.cons k v (VFields.ofList tl)

/-- First value bound to `k`, if any (Go map indexing `m[k]`, present case). -/
def VFields.lookup : VFields → String → Option Value
  | VFields.nil, _ => none
  | VFields.cons k v tl, key => if k = key then some v else VFields.lookup tl key

/-- Go map indexing `m[k]`: a missing key yields the nil interface,
modelled as `Value.null`. -/
def VFields.lookupOrNull (m : VFields) (key : String) : Value :=
  match VFields.lookup m key with
  | some v => v
  | none => Value.null

/-- Go `delete(m, k)` (keys are unique, so removing every binding of `k`
coincides with deleting the single entry). -/
def VFields.erase : VFields → String → VFields
  | VFields.nil, _ => VFields.nil
  | VFields.cons k v tl, key =>
    if k = key then VFields.erase tl key else VFields.cons k v (VFields.erase tl key)

/-- Convenience: build a sequence value from a Lean list. -/
def vseq (xs : List Value) : Value := Value.seq (VList.ofList xs)

/-- Convenience: build a mapping value from an association list. -/
def vmap (kvs : List (String × Value)) : Value := Value.map (VFields.ofList kvs)

/-! ## Integer coercion helpers (`main.go`) -/

/-- Two's-complement wrap of an integer into the signed 64-bit range,
as Go `int64` arithmetic does. -/
def int64Wrap (z : Int) : Int :=
  (z + 2 ^ 63).emod (2 ^ 64) - 2 ^ 63

/-- `math/big.Int.Int64`: the low 64 bits of the magnitude reinterpreted as a
signed 64-bit integer, negated (with int64 wraparound) for negative inputs.
The Go documentation leaves the out-of-range result undefined; this models
what `math/big` actually computes. -/
def bigIntInt64 (n : Int) : Int :=
  let low : Nat := n.natAbs % 2 ^ 64
  let v : Int := if (low : Int) < 2 ^ 63 then (low : Int) else (low : Int) - 2 ^ 64
  if n < 0 then int64Wrap (-v) else v

/-- Go float64-to-int64 conversion for in-range finite floats: truncation
toward zero of the exact rational value. -/
def truncRat (q : Rat) : Int :=
  if 0 ≤ q.num then q.num / (q.den : Int) else -((-q.num) / (q.den : Int))

/-- `strconv.lower`: force the ASCII case bit. -/
def goLowerByte (c : Char) : Char :=
  Char.ofNat (c.toNat ||| 0x20)

/-- Digit value of a character for `strconv.ParseUint`: `none` marks a
syntax error. -/
def goDigitVal (c : Char) : Option Nat :=
  if '0' ≤ c ∧ c ≤ '9' then some (c.toNat - '0'.toNat)
  else
    let l := goLowerByte c
    if 'a' ≤ l ∧ l ≤ 'z' then some (l.toNat - 'a'.toNat + 10)
    else none

/-- Outcome of `strconv.ParseUint`: the returned value paired with the error
class (`0` = nil error, `1` = syntax error, `2` = range error). -/
structure ParseUintResult where
  val : Nat
  err : Nat

/-- Digit-accumulation loop of `strconv.ParseUint` (bitSize 64): `base0`
tells whether underscores are tolerated (checked separately afterwards). -/
def goParseUintLoop (base : Nat) (base0 : Bool) : List Char → Nat → ParseUintResult
  | [], n => { val := n, err := 0 }
  | c :: rest, n =>
    if c = '_' ∧ base0 then goParseUintLoop base base0 rest n
    else
      match goDigitVal c with
      | none => { val := 0, err := 1 }
      | some d =>
        if base ≤ d then { val := 0, err := 1 }
        else
          let maxVal : Nat := 2 ^ 64 - 1
          let cutoff : Nat := maxVal / base + 1
          if cutoff ≤ n then { val := maxVal, err := 2 }
          else
            let n1 := n * base + d
            if maxVal < n1 then { val := maxVal, err := 2 }
            else goParseUintLoop base base0 rest n1

/-- `strconv.underscoreOK` state letters: `^` start, `0` digit seen,
`_` underscore seen, `!` other. -/
def goUnderscoreStep (hex : Bool) (saw : Char) (c : Char) : Option Char :=
  if ('0' ≤ c ∧ c ≤ '9') ∨ (hex ∧ 'a' ≤ goLowerByte c ∧ goLowerByte c ≤ 'f') then
    some '0'
  else if c = '_' then
    if saw ≠ '0' then none else some '_'
  else if saw = '_' then none
  else some '!'

/-- Fold of `goUnderscoreStep` over the remaining characters. -/
def goUnderscoreLoop (hex : Bool) : Char → List Char → Bool
  | saw, [] => saw ≠ '_'
  | saw, c :: rest =>
    match goUnderscoreStep hex saw c with
    | none => false
    | some saw2 => goUnderscoreLoop hex saw2 rest

/-- `strconv.underscoreOK`: underscores may only appear between digits (or
directly after a base prefix). -/
def goUnderscoreOK (s : List Char) : Bool :=
  let s1 := match s with
    | c :: rest => if c = '-' ∨ c = '+' then rest else s
    | [] => s
  match s1 with
  | c0 :: c1 :: rest =>
    if c0 = '0' ∧ (goLowerByte c1 = 'b' ∨ goLowerByte c1 = 'o' ∨ goLowerByte c1 = 'x') then
      goUnderscoreLoop (goLowerByte c1 = 'x') '0' rest
    else goUnderscoreLoop false '^' s1
  | _ => goUnderscoreLoop false '^' s1

/-- `strconv.ParseUint(s, 0, 64)` after the caller stripped the sign:
auto-detects the base from a `0b`/`0o`/`0x`/`0` prefix. -/
def goParseUint0 (s0sign : List Char) (s : List Char) : ParseUintResult :=
  match s with
  | [] => { val := 0, err := 1 }
  | c0 :: rest =>
    let (base, digits) :=
      if c0 = '0' then
        match rest with
        | c1 :: rest2 =>
          if 1 ≤ rest2.length ∧ goLowerByte c1 = 'b' then (2, rest2)
          else if 1 ≤ rest2.length ∧ goLowerByte c1 = 'o' then (8, rest2)
          else if 1 ≤ rest2.length ∧ goLowerByte c1 = 'x' then (16, rest2)
          else (8, c1 :: rest2)
        | [] => (8, ([] : List Char))
      else (10, c0 :: rest)
    let r := goParseUintLoop base true digits 0
    if r.err = 0 ∧ digits.contains '_' ∧ ¬ goUnderscoreOK s0sign then
      { val := 0, err := 1 }
    else r

/-- `strconv.ParseInt(s, 0, 64)`: the returned int64 paired with `err == nil`.
On a syntax error Go returns 0; on a range error it returns the clamped
bound; both come with `false`. -/
def goParseInt (s : String) : Int × Bool :=
  match s.data with
  | [] => (0, false)
  | c :: rest =>
    let (neg, digits) :=
      if c = '+' then (false, rest)
      else if c = '-' then (true, rest)
      else (false, c :: rest)
    let r := goParseUint0 s.data digits
    if r.err = 1 then (0, false)
    else
      let cutoff : Nat := 2 ^ 63
      if ¬ neg ∧ cutoff ≤ r.val then (cutoff - 1, false)
      else if neg ∧ cutoff < r.val then (-(cutoff : Int), false)
      else
        let n : Int := if neg then -(r.val : Int) else (r.val : Int)
        (n, r.err = 0)

/-! ## JSON serialization (`encoding/json.Marshal` on opaque values) -/

/-- Lower-case hexadecimal digit. -/
def hexDigitChar (n : Nat) : Char :=
  if n < 10 then Char.ofNat ('0'.toNat + n) else Char.ofNat ('a'.toNat + (n - 10))

/-- Per-character JSON string escaping as `encoding/json` performs it with
HTML escaping on (the default for `json.Marshal`): quotes, backslashes and
control characters are escaped, as are `<`, `>`, `&`, U+2028 and U+2029. -/
def escapeJSONChar (c : Char) : String :=
  if c = '"' then "\\\""
  else if c = '\\' then "\\\\"
  else if c = '\n' then "\\n"
  else if c = '\r' then "\\r"
  else if c = '\t' then "\\t"
  else if c = '<' then "\\u003c"
  else if c = '>' then "\\u003e"
  else if c = '&' then "\\u0026"
  else if c.toNat < 0x20 then
    String.mk ['\\', 'u', '0', '0', hexDigitChar (c.toNat / 16), hexDigitChar (c.toNat % 16)]
  else if c.toNat = 0x2028 then "\\u2028"
  else if c.toNat = 0x2029 then "\\u2029"
  else String.singleton c

/-- JSON string literal for `s`. -/
def escapeJSONString (s : String) : String :=
  "\"" ++ String.join (s.data.map escapeJSONChar) ++ "\""

/-- Exact decimal expansion of `r / den` (`r < den`), with enough fuel for
every float64 (whose denominator is at most `2 ^ 1074`). -/
def decDigits : Nat → Nat → Nat → String
  | 0, _, _ => ""
  | _, 0, _ => ""
  | fuel + 1, r, den =>
    String.singleton (Char.ofNat ('0'.toNat + r * 10 / den)) ++ decDigits fuel (r * 10 % den) den

/-- Decimal rendering of a float64 modelled as an exact rational
(`strconv.FormatFloat(v, 'f', -1, 64)` renders the shortest round-tripping
decimal; for the value model the exact expansion is used instead — the two
agree on all values the claims exercise). -/
def floatRepr (q : Rat) : String :=
  let na := q.num.natAbs
  let frac := decDigits 1200 (na % q.den) q.den
  (if q.num < 0 then "-" else "") ++ toString (na / q.den) ++
    (if frac = "" then "" else "." ++ frac)

/-- Lexicographic comparison of character lists (the code-point order, which
agrees with Go's byte order on UTF-8 strings). -/
def charListLt : List Char → List Char → Bool
  | [], [] => false
  | [], _ :: _ => true
  | _ :: _, [] => false
  | a :: as, b :: bs => if a < b then true else if b < a then false else charListLt as bs

/-- Go string `<` (used by the encoder's key sort). -/
def strLt (a b : String) : Bool := charListLt a.data b.data

/-- Insert a rendered field into a key-sorted rendered field list
(`encoding/json` emits object keys in increasing string order). -/
def insertField (p : String × String) : List (String × String) → List (String × String)
  | [] => [p]
  | q :: tl => if strLt p.1 q.1 then p :: q :: tl else q :: insertField p tl

/-- Sort rendered fields by key. -/
def sortFields : List (String × String) → List (String × String)
  | [] => []
  | p :: tl => insertField p (sortFields tl)

/-- Comma-join rendered object fields. -/
def joinFields : List (String × String) → String
  | [] => ""
  | [(k, s)] => escapeJSONString k ++ ":" ++ s
  | (k, s) :: tl => escapeJSONString k ++ ":" ++ s ++ "," ++ joinFields tl

mutual

/-- `encoding/json.Marshal` on an opaque value (compact form, sorted object
keys, HTML escaping — the encoder defaults used by the program).  Total
because the value model contains only JSON-serializable shapes (`*big.Int`
marshals via its `MarshalJSON`; non-finite floats are outside the model). -/
def jsonMarshal : Value → String
  | Value.null => "null"
  | Value.bool true => "true"
  | Value.bool false => "false"
  | Value.int n => toString n
  | Value.bigint n => toString n
  | Value.float q => floatRepr q
  | Value.str s => escapeJSONString s
  | Value.seq xs => "[" ++ marshalSeq xs ++ "]"
  | Value.map fields => "\x7b" ++ joinFields (sortFields (marshalFieldList fields)) ++ "\x7d"

/-- Comma-joined serialization of the elements of a sequence. -/
def marshalSeq : VList → String
  | VList.nil => ""
  | VList.cons v tl =>
    jsonMarshal v ++ (match tl with | VList.nil => "" | VList.cons _ _ => ",") ++ marshalSeq tl

/-- Render each field's value, keeping keys. -/
def marshalFieldList : VFields → List (String × String)
  | VFields.nil => []
  | VFields.cons k v tl => (k, jsonMarshal v) :: marshalFieldList tl

end

/-- `opaqueString` (`main.go`): coerce an opaque value to `(string, ok)`.
The default branch serializes the value as JSON (always succeeds on the
value model). -/
def opaqueString : Value → String × Bool
  | Value.null => ("", false)
  | Value.str s => (s, true)
  | Value.float q => (floatRepr q, true)
  | Value.bigint n => (toString n, true)
  | Value.int n => (toString n, true)
  | v => (jsonMarshal v, true)

/-- Collect `opaqueString` over a sequence, keeping only the `ok` results. -/
def opaqueStringsList : VList → List String
  | VList.nil => []
  | VList.cons v tl =>
    match opaqueString v with
    | (s, true) => s :: opaqueStringsList tl
    | (_, false) => opaqueStringsList tl

/-- `opaqueStrings` (`main.go`): coerce an opaque value to a list of strings;
a sequence keeps its element-wise coercions (ok iff at least one succeeded),
any other value is wrapped as a singleton. -/
def opaqueStrings : Value → List String × Bool
  | Value.null => ([], false)
  | Value.seq xs =>
    let strs := opaqueStringsList xs
    (strs, ¬ strs.isEmpty)
  | v =>
    match opaqueString v with
    | (s, true) => ([s], true)
    | (_, false) => ([], false)

/-- `opaqueInt` (`main.go`): coerce an opaque value to `(int64, ok)`.
Note the `*big.Int` branch returns `ok = true` unconditionally, with the
(undefined-for-out-of-range) 64-bit extraction as the value. -/
def opaqueInt : Value → Int × Bool
  | Value.null => (0, false)
  | Value.float q => (truncRat q, true)
  | Value.bigint n => (bigIntInt64 n, true)
  | Value.int n => (n, true)
  | Value.str s => goParseInt s
  | _ => (0, false)

/-! ## Expression runtime adapter and mapping chains (`config.go`) -/

/-- One item yielded by a running gojq iterator: either a value or an error
(the source checks `output.(error)`). -/
inductive EvalOut : Type where
  | val (v : Value) : EvalOut
  | err (msg : String) : EvalOut

/-- A compiled expression (`Expr` in `config.go`).  The gojq engine is a
black box: `run input ctxVar` is `Code.RunWithContext(ctx, input, ctxVar)`
drained into the finite list of yielded items. -/
structure Expr : Type where
  run : Value → Value → List EvalOut

/-- `ErrNoMapping` (`config.go`). -/
def ErrNoMapping : String := "no result from output mapping"

/-- `ErrMultipleMapping` (`config.go`). -/
def ErrMultipleMapping : String := "mapping produced multiple values"

/-- `Expr.Apply` (`config.go`): run the compiled expression; no yielded value
is an error, a first yielded error is propagated, a second yielded item is
an error, otherwise the single value is returned. -/
def Expr.Apply (e : Expr) (input ctxVar : Value) : Except String Value :=
  match e.run input ctxVar with
  | [] => Except.error ("no value returned by mapping: " ++ ErrNoMapping)
  | EvalOut.err m :: _ => Except.error ("error returned by mapping: " ++ m)
  | EvalOut.val v :: rest =>
    if rest.isEmpty then Except.ok v
    else Except.error ("unexpected results from mapping: " ++ ErrMultipleMapping)

/-- `type Mapping []*Expr` (`config.go`). -/
abbrev Mapping := List Expr

/-- The indexed loop body of `Mapping.Apply`: thread the value through the
remaining expressions, `i` being the position of the first of them in the
whole chain (used in the error annotation). -/
def Mapping.applyFrom : Nat → List Expr → Value → Value → Except String Value
  | _, [], output, _ => Except.ok output
  | i, e :: rest, output, c =>
    match Expr.Apply e output c with
    | Except.error err => Except.error ("error applying mapping " ++ toString i ++ ": " ++ err)
    | Except.ok w => Mapping.applyFrom (i + 1) rest w c

/-- `Mapping.Apply` (`config.go`): an empty chain returns the input
unchanged; otherwise the value is threaded through each expression in
order, the first failure aborting with its index in the error. -/
def Mapping.Apply (m : Mapping) (input ctxVar : Value) : Except String Value :=
  if m.isEmpty then Except.ok input else Mapping.applyFrom 0 m input ctxVar

/-! ## Argument definitions (`config.go`) -/

/-- The `ArgDef` variants (`ArgLiteral`, `PathParamRef`, `QueryParamRef`,
`ExprParam` in `config.go`), as a tagged union. -/
inductive ArgDef : Type where
  | ArgLiteral (Literal : Value) : ArgDef
  | PathParamRef (Name : String) : ArgDef
  | QueryParamRef (Name : String) : ArgDef
  | ExprParam (e : Expr) : ArgDef

/-- `ErrBadArgDef` (`config.go`, current revision). -/
def ErrBadArgDef : String :=
  "invalid arg def: must be a scalar, null, or contain a single key of 'path', 'query', or 'expr'"

/-- `UnmarshalArgDef` (`config.go`, current revision), over an already
lexed JSON document (decoding a raw message into
`map[string]json.RawMessage` succeeds exactly for objects and `null`, the
latter leaving the map nil).  `compile` is the gojq parse-and-compile black
box used by `Expr.UnmarshalText`.  Note the fallback branch accepts every
non-object document — including a bare array — as a literal. -/
def UnmarshalArgDef (compile : String → Except String Expr) (blob : Value) :
    Except String ArgDef :=
  match blob with
  | Value.null => Except.ok (ArgDef.ArgLiteral Value.null)
  | Value.map (VFields.cons k v VFields.nil) =>
    if k = "path" then
      match v with
      | Value.str s => Except.ok (ArgDef.PathParamRef s)
      | _ => Except.error "error unmarshaling path arg def"
    else if k = "query" then
      match v with
      | Value.str s => Except.ok (ArgDef.QueryParamRef s)
      | _ => Except.error "error unmarshaling query arg def"
    else if k = "expr" then
      match v with
      | Value.str s =>
        match compile s with
        | Except.ok e => Except.ok (ArgDef.ExprParam e)
        | Except.error msg => Except.error ("error unmarshaling expr arg def: " ++ msg)
      | _ => Except.error "error unmarshaling expr arg def"
    else Except.error ErrBadArgDef
  | Value.map _ => Except.error ErrBadArgDef
  | other => Except.ok (ArgDef.ArgLiteral other)

/-! ## Endpoint and query definitions, validation (`config.go`) -/

/-- `IsolationLevel` is an `sql.IsolationLevel` (an int); `-1` encodes
`none`. -/
def IsolationLevel.RequiresTranscation (i : Int) : Bool :=
  decide (i ≠ -1)

/-- `TransactionDef` (`config.go`, current revision). -/
structure TransactionDef : Type where
  DB : String
  Isolation : Int

/-- `StepDef` (`config.go`). -/
structure StepDef : Type where
  Transaction : Int
  Query : String
  Args : List ArgDef
  Map : Mapping

/-- `QueryDef` (`config.go`). -/
structure QueryDef : Type where
  Transactions : List TransactionDef
  Steps : List StepDef

/-- `QueryDef.Validate` (`config.go`), as the predicate "validation returned
no error": at least one transaction is declared, every step's transaction
index is a declared index (`all.Contains`), and the set of referenced
indexes equals the set of declared indexes (`all.Equal(refs)`, expressed by
mutual containment; one inclusion is the per-step bound check). -/
def QueryDef.Validate (qd : QueryDef) : Bool :=
  let n := qd.Transactions.length
  decide (n ≠ 0)
    && qd.Steps.all (fun sd => decide (0 ≤ sd.Transaction) && decide (sd.Transaction < (n : Int)))
    && (List.range n).all (fun i => qd.Steps.any (fun sd => sd.Transaction == (i : Int)))

/-- `BodyType` (`config.go`). -/
inductive BodyType : Type where
  | JSONBodyType : BodyType
  | FormBodyType : BodyType
  | StringBodyType : BodyType
  | NoBodyType : BodyType

/-- `ParamMapping` (`config.go`). -/
structure ParamMapping : Type where
  Map : Mapping

/-- `ParamMappings` (`config.go`): name-keyed mapping definitions (an
association list; Go map iteration order is unspecified, the model fixes
list order). -/
abbrev ParamMappings := List (String × ParamMapping)

/-- `EndpointDef` (`config.go`): the fields the request engine consumes
(`Bind` is routing glue, out of scope). -/
structure EndpointDef : Type where
  Method : String
  Path : String
  BodyType : BodyType
  QueryParams : ParamMappings
  PathParams : ParamMappings
  Query : QueryDef

/-- A `Handler` (`main.go`) embeds the endpoint definition; its database
handle map is abstracted into the transaction/query oracles below. -/
abbrev Handler := EndpointDef

/-! ## Parameters (`main.go`) -/

/-- `Params` (`main.go`): separate path and query parameter maps. -/
structure Params : Type where
  Path : List (String × Value)
  Query : List (String × Value)

/-- `Params.Opaque` (`main.go`). -/
def Params.Opaque (p : Params) : Value :=
  vmap [("path", vmap p.Path), ("query", vmap p.Query)]

/-- Association-list lookup for parameter maps. -/
def alookup : List (String × Value) → String → Option Value
  | [], _ => none
  | (k, v) :: tl, key => if k = key then some v else alookup tl key

/-- Association-list update (the key is present whenever the source writes). -/
def aset : List (String × Value) → String → Value → List (String × Value)
  | [], _, _ => []
  | (k, v) :: tl, key, nv =>
    if k = key then (k, nv) :: tl else (k, v) :: aset tl key nv

/-- The inbound request fragments the engine reads: decoded query string,
router path captures, and the body bytes (`io.ReadAll` may fail). -/
structure Request : Type where
  queryParams : List (String × List String)
  pathParams : List (String × String)
  bodyData : Except Unit String

/-- `newParams` plus the extraction loops of `Handler.ParseParams`
(`main.go`): query values become sequences of strings, path values are
single strings. -/
def newParamsOf (req : Request) : Params :=
  { Path := req.pathParams.map (fun p => (p.1, Value.str p.2)),
    Query := req.queryParams.map (fun p => (p.1, vseq (p.2.map Value.str))) }

/-- The `mapParams` closure inside `Handler.ParseParams` (`main.go`):
for each configured parameter mapping whose parameter is present, replace
the value with the result of its mapping chain (applied with a nil context
variable); the first failure aborts, annotated with the parameter name. -/
def mapParams : ParamMappings → List (String × Value) → Except String (List (String × Value))
  | [], params => Except.ok params
  | (k, pd) :: rest, params =>
    match alookup params k with
    | none => mapParams rest params
    | some v =>
      match Mapping.Apply pd.Map v Value.null with
      | Except.error e =>
        Except.error ("error mapping parameter \"" ++ k ++ "\": " ++ e)
      | Except.ok v2 => mapParams rest (aset params k v2)

/-- `Handler.ParseParams` (`main.go`, `part_002` revision). -/
def Handler.ParseParams (h : Handler) (req : Request) : Except String Params :=
  let params := newParamsOf req
  match mapParams h.PathParams params.Path with
  | Except.error e => Except.error ("failed to map path parameters: " ++ e)
  | Except.ok path =>
    match mapParams h.QueryParams params.Query with
    | Except.error e => Except.error ("failed to map query parameters: " ++ e)
    | Except.ok query => Except.ok { Path := path, Query := query }

/-! ## Transaction lifecycle (`main.go`) -/

/-- What `CommitOrRollback` did to a transaction state. -/
inductive TxAction : Type where
  | commit : TxAction
  | rollback : TxAction
  | noop : TxAction
deriving DecidableEq

/-- `transactionState` (`main.go`): its `DB` field is an `sqlx.Tx` — and
hence a `Committer` — exactly when the declaring `TransactionDef`'s
isolation required a transaction; otherwise it is the bare pool handle,
which has no `Commit`/`Rollback`. -/
structure transactionState : Type where
  isolation : Int

/-- `transactionState.CommitOrRollback` (`main.go`): substitute the context
error when the pipeline error is nil; a non-`Committer` state is left
untouched; otherwise commit on nil error and roll back on error.  (The
error returned by the commit/rollback call itself is only logged by the
caller, so the model records the chosen action.) -/
def transactionState.CommitOrRollback (t : transactionState) (ctxErr err : Option String) :
    TxAction :=
  let e := match err with
    | none => ctxErr
    | some m => some m
  if IsolationLevel.RequiresTranscation t.isolation = false then TxAction.noop
  else match e with
    | none => TxAction.commit
    | some _ => TxAction.rollback

/-- `newTransaction` (`main.go`): isolation `none` wraps the pool handle
directly; otherwise `BeginTxx` is attempted (`beginErr` is the driver
oracle: `none` means the transaction started). -/
def newTransaction (beginErr : Option String) (td : TransactionDef) :
    Except String transactionState :=
  if IsolationLevel.RequiresTranscation td.Isolation = false then
    Except.ok { isolation := td.Isolation }
  else
    match beginErr with
    | none => Except.ok { isolation := td.Isolation }
    | some e => Except.error ("error beginning transaction: " ++ e)

/-- The transaction-opening loop of `computeResponse`: open each declared
transaction in order, stopping at the first failure; returns the created
prefix and the error, if any.  (In the source the remaining slots of the
pre-sized array stay nil, and the closing loop stops at the first nil, so
the created prefix is exactly what gets finalized.) -/
def startTransactions (beginErr : Nat → Option String) :
    Nat → List TransactionDef → List transactionState × Option String
  | _, [] => ([], none)
  | i, td :: rest =>
    match newTransaction (beginErr i) td with
    | Except.error e => ([], some e)
    | Except.ok t =>
      let r := startTransactions beginErr (i + 1) rest
      (t :: r.1, r.2)

/-- The loop body of the `closeTransactions` closure: finalize the created
transaction states in order, `ti` being the array index of the first of
them. -/
def closeFrom (ctxErr err : Option String) : Nat → List transactionState → List (Nat × TxAction)
  | _, [] => []
  | ti, t :: rest =>
    (ti, transactionState.CommitOrRollback t ctxErr err) :: closeFrom ctxErr err (ti + 1) rest

/-- The `closeTransactions` closure of `computeResponse`: finalize every
created transaction state, in declaration order, with the request's error
state (the loop stops at the first nil slot, i.e. after the created
prefix). -/
def closeTransactions (ctxErr err : Option String) (created : List transactionState) :
    List (Nat × TxAction) :=
  closeFrom ctxErr err 0 created

/-! ## Pipeline evaluation (`main.go`) -/

/-- `argContext` (`main.go`).  The memoized `opaque` map is omitted: it is
rebuilt observably-equal on every `Opaque()` call. -/
structure argContext : Type where
  params : Params
  body : Value
  stepResults : List Value
  outputs : List Value
  args : List Value

/-- `argContext.Opaque` (`main.go`): the context value handed to gojq, with
the mutable `args`/`steps`/`outputs` entries refreshed from the current
context (Go copies the slices; the model is pure). -/
def argContext.Opaque (c : argContext) : Value :=
  vmap [("params", Params.Opaque c.params), ("body", c.body), ("args", vseq c.args),
        ("steps", vseq c.stepResults), ("outputs", vseq c.outputs)]

/-- `argContext.Resolve` (`main.go`): literals pass through, parameter
references look up the (possibly mapped) parameter, and expression
arguments run against the opaque context — passed as both the gojq input
and the `$context` variable. -/
def argContext.Resolve (c : argContext) (arg : ArgDef) : Except String Value :=
  match arg with
  | ArgDef.ArgLiteral v => Except.ok v
  | ArgDef.PathParamRef name =>
    match alookup c.params.Path name with
    | some param => Except.ok param
    | none => Except.error ("path param \"" ++ name ++ "\" not defined")
  | ArgDef.QueryParamRef name =>
    match alookup c.params.Query name with
    | some param => Except.ok param
    | none => Except.error ("query param \"" ++ name ++ "\" not defined")
  | ArgDef.ExprParam e => Expr.Apply e (argContext.Opaque c) (argContext.Opaque c)

/-- The argument-resolution loop of a step in `computeResponse`: each
argument is resolved against the same context `c` (the step's resolved
values are only assigned to `c.args` after the whole loop), aborting on the
first failure. -/
def resolveArgs (c : argContext) : List ArgDef → Except String (List Value)
  | [] => Except.ok []
  | ad :: rest =>
    match argContext.Resolve c ad with
    | Except.error e => Except.error e
    | Except.ok v =>
      match resolveArgs c rest with
      | Except.error e => Except.error e
      | Except.ok vs => Except.ok (v :: vs)

/-- The Go runtime panic message for a slice index out of range.  The source
indexes `transactions[s.Transaction]` and `outputs[len(outputs)-1]` without
a bounds check; the model maps the (validation-excluded) panic to this
distinguished error. -/
def outOfRangeMsg : String := "panic: runtime error: index out of range"

/-- The step loop of `computeResponse` (`main.go`): for each step in order —
look up its transaction (a bad index panics in Go, modelled by
`outOfRangeMsg`), resolve the arguments against the pre-step context,
record them in `args`, execute the query (`exec` abstracts `sqlx.In`,
`Rebind`, `QueryContext`, `vdb.ScanRows` and `Results.Opaque`; `none` is
any failure, reported as the written `internal server error`), append the
raw result to `stepResults`, apply the step mapping with the refreshed
opaque context, and append its result to `outputs`.  The error strings are
the `http.Error` messages the source writes on each failure path. -/
def runSteps (exec : Nat → List Value → Option Value) (txCount : Nat) :
    List StepDef → Nat → argContext → Except String argContext
  | [], _, c => Except.ok c
  | s :: rest, si, c =>
    if s.Transaction < 0 ∨ (txCount : Int) ≤ s.Transaction then Except.error outOfRangeMsg
    else
      match resolveArgs c s.Args with
      | Except.error _ => Except.error "error resolving arguments"
      | Except.ok args =>
        let c1 : argContext := { c with args := args }
        match exec si args with
        | none => Except.error "internal server error"
        | some res =>
          let c2 : argContext := { c1 with stepResults := c1.stepResults ++ [res] }
          match Mapping.Apply s.Map res (argContext.Opaque c2) with
          | Except.error _ => Except.error "internal server error"
          | Except.ok out => runSteps exec txCount rest (si + 1) { c2 with outputs := c2.outputs ++ [out] }

/-- The fresh `argCtx` of `computeResponse`. -/
def initialArgContext (params : Params) (body : Value) : argContext :=
  { params := params, body := body, stepResults := [], outputs := [], args := [] }

/-- The error component of the named `(out, err)` return. -/
def errOf : Except String Value → Option String
  | Except.error e => some e
  | Except.ok _ => none

/-- The observable outcome of `computeResponse`: the returned value or the
message written via `http.Error` (all its failure responses carry status
500), plus the finalization actions applied to the created transaction
states by the deferred `closeTransactions`. -/
structure computeResult : Type where
  out : Except String Value
  finalized : List (Nat × TxAction)

/-- `Handler.computeResponse` (`main.go`): open the declared transactions in
order (stopping at the first failure), run the step loop, return the last
step's mapped output (`outputs[len(outputs)-1]`; empty `outputs` panics in
Go, modelled by `outOfRangeMsg`), and — via the deferred closure — finalize
every created transaction with the resulting error and the request
context's cancellation state `ctxErr`. -/
def computeResponse (beginErr : Nat → Option String) (exec : Nat → List Value → Option Value)
    (ctxErr : Option String) (q : QueryDef) (params : Params) (body : Value) : computeResult :=
  let s := startTransactions beginErr 0 q.Transactions
  let out : Except String Value :=
    match s.2 with
    | some _ => Except.error "error preparing request"
    | none =>
      match runSteps exec q.Transactions.length q.Steps 0 (initialArgContext params body) with
      | Except.error e => Except.error e
      | Except.ok c =>
        match c.outputs.getLast? with
        | some v => Except.ok v
        | none => Except.error outOfRangeMsg
  { out := out, finalized := closeTransactions ctxErr (errOf out) s.1 }

/-! ## Response materialization (`main.go` `Handler.reply`) -/

/-- The wire-observable response: status code, headers (in the order they
were set), and body. -/
structure Response : Type where
  status : Int
  headers : List (String × String)
  body : String

/-- `http.Error(w, msg, code)`: plain-text headers and the message with a
trailing newline. -/
def httpError (code : Int) (msg : String) : Response :=
  { status := code,
    headers := [("Content-Type", "text/plain; charset=utf-8"),
                ("X-Content-Type-Options", "nosniff")],
    body := msg ++ "\n" }

/-- `w.Header().Set(k, v)`: replace any previous value of the key. -/
def setHeader (hdrs : List (String × String)) (k v : String) : List (String × String) :=
  hdrs.filter (fun p => p.1 ≠ k) ++ [(k, v)]

/-- `http.CanonicalHeaderKey`: capitalize the first letter of each
dash-separated segment, lowercasing the rest (the Go fast path for invalid
header bytes is not modelled; no claim exercises it). -/
def canonChars : Bool → List Char → List Char
  | _, [] => []
  | start, c :: tl =>
    if c = '-' then '-' :: canonChars true tl
    else (if start then c.toUpper else c.toLower) :: canonChars false tl

/-- String wrapper for `canonChars`. -/
def canonicalHeaderKey (s : String) : String := String.mk (canonChars true s.data)

/-- The header loop of `Handler.reply`: each entry of the `headers` map is
coerced with `opaqueStrings` (its ok flag ignored) and every coerced string
added under the canonicalized key. -/
def fieldsToHeaderList : VFields → List (String × String)
  | VFields.nil => []
  | VFields.cons k v tl =>
    (opaqueStrings v).1.map (fun hv => (canonicalHeaderKey k, hv)) ++ fieldsToHeaderList tl

/-- `r["headers"].(map[string]interface{})` with the ok flag dropped: a
non-map yields no headers. -/
def envelopeHeaders : Value → List (String × String)
  | Value.map fields => fieldsToHeaderList fields
  | _ => []

/-- The tail of `Handler.reply`: marshal the output value (total on the
value model — `json.Marshal` only fails on values outside it, e.g.
non-finite floats), set `Content-Length` to the byte length of the blob and
`Content-Type`, then write the status and body. -/
def emitJSON (status : Int) (hdrs : List (String × String)) (v : Value) : Response :=
  let blob := jsonMarshal v
  { status := status,
    headers := setHeader (setHeader hdrs "Content-Length" (toString blob.utf8ByteSize))
      "Content-Type" "application/json",
    body := blob }

/-- The `__response` envelope branch of `Handler.reply` (`main.go`):
`maxInt` is the platform's `math.MaxInt`.  Status: `opaqueInt` of
`r["status"]`; if coercible but `> maxInt` or `≤ 0`, reply
`internal server error` (500) before anything else; if not coercible the
status stays 200.  Then the envelope headers are added, and a coercible
`data_key` string redirects the body to `mr[data_key]` (read before the
outer `delete`); otherwise the body is the outer mapping with its
`__response` entry deleted. -/
def replyEnvelope (maxInt : Int) (mr r : VFields) : Response :=
  let st := opaqueInt (VFields.lookupOrNull r "status")
  if st.2 = true ∧ (maxInt < st.1 ∨ st.1 ≤ 0) then httpError 500 "internal server error"
  else
    let status : Int := if st.2 then st.1 else 200
    let hdrs := envelopeHeaders (VFields.lookupOrNull r "headers")
    let dk := opaqueString (VFields.lookupOrNull r "data_key")
    if dk.2 then emitJSON status hdrs (VFields.lookupOrNull mr dk.1)
    else emitJSON status hdrs (Value.map (VFields.erase mr "__response"))

/-- `Handler.reply` (`main.go`): a non-map output skips envelope handling
entirely (the nil-map type assertions fail) and is emitted as-is with
status 200; a map output is checked for a map-valued `__response` envelope,
and in every map case the `__response` entry is deleted from the outer
mapping before marshaling. -/
def Handler.reply (maxInt : Int) (out : Value) : Response :=
  match out with
  | Value.map mr =>
    (match VFields.lookup mr "__response" with
     | some (Value.map r) => replyEnvelope maxInt mr r
     | _ => emitJSON 200 [] (Value.map (VFields.erase mr "__response")))
  | v => emitJSON 200 [] v

/-! ## HTTP handlers (`main.go` `Handler.Get` / `Handler.Post`) -/

/-- `Handler.Get` (`main.go`, `part_002` revision): parameter parsing
failure replies `bad request: <err>` with status 400 and the pipeline never
runs (the returned flag records whether `computeResponse` executed);
otherwise the pipeline result is materialized by `reply` (on pipeline
error, `computeResponse` already wrote its 500 response). -/
def Handler.Get (h : Handler) (maxInt : Int) (beginErr : Nat → Option String)
    (exec : Nat → List Value → Option Value) (ctxErr : Option String) (req : Request) :
    Response × Bool :=
  match Handler.ParseParams h req with
  | Except.error e => (httpError 400 ("bad request: " ++ e), false)
  | Except.ok params =>
    let r := computeResponse beginErr exec ctxErr h.Query params Value.null
    match r.out with
    | Except.error msg => (httpError 500 msg, true)
    | Except.ok v => (Handler.reply maxInt v, true)

/-- `Handler.Post` (`main.go`, `part_002` revision): the body switch (form
parsing is stubbed in the source and assigns no body; JSON and string
bodies reply 406 on read/parse failure, an empty body stays nil), then
parameter parsing — whose failure replies a generic `internal server error`
with status 500 — then the pipeline.  `jsonParse` abstracts
`encoding/json.Unmarshal` into an interface value. -/
def Handler.Post (h : Handler) (maxInt : Int) (beginErr : Nat → Option String)
    (exec : Nat → List Value → Option Value) (ctxErr : Option String)
    (jsonParse : String → Option Value) (req : Request) : Response × Bool :=
  let bodyRes : Except Response Value :=
    match h.BodyType with
    | BodyType.FormBodyType => Except.ok Value.null
    | BodyType.JSONBodyType =>
      match req.bodyData with
      | Except.error _ => Except.error (httpError 406 "error reading request body")
      | Except.ok data =>
        if data.isEmpty then Except.ok Value.null
        else
          match jsonParse data with
          | none => Except.error (httpError 406 "error parsing request body")
          | some v => Except.ok v
    | BodyType.StringBodyType =>
      match req.bodyData with
      | Except.error _ => Except.error (httpError 406 "error reading request body")
      | Except.ok data => Except.ok (if data.isEmpty then Value.null else Value.str data)
    | BodyType.NoBodyType => Except.ok Value.null
  match bodyRes with
  | Except.error resp => (resp, false)
  | Except.ok body =>
    match Handler.ParseParams h req with
    | Except.error _ => (httpError 500 "internal server error", false)
    | Except.ok params =>
      let r := computeResponse beginErr exec ctxErr h.Query params body
      match r.out with
      | Except.error msg => (httpError 500 msg, true)
      | Except.ok v => (Handler.reply maxInt v, true)

/-! ## Miscellaneous predicates used in statements -/

/-- Whether a value is a string-keyed mapping (the shape for which
`out.(map[string]interface{})` succeeds). -/
def Value.isMap : Value → Bool
  | Value.map _ => true
  | _ => false

/-- Boolean prefix test on character lists. -/
def listPrefix : List Char → List Char → Bool
  | [], _ => true
  | _ :: _, [] => false
  | a :: as, b :: bs => a = b && listPrefix as bs

/-- Boolean substring test on character lists. -/
def listContains (pat : List Char) : List Char → Bool
  | [] => listPrefix pat []
  | c :: rest => listPrefix pat (c :: rest) || listContains pat rest

/-- Whether `pat` occurs as a substring of `s`. -/
def strContains (s pat : String) : Bool := listContains pat.data s.data

/-- Whether `Handler.reply` would redirect the body through a `data_key`
entry of the `__response` envelope of the outer mapping `mr`. -/
def dataKeyRedirects (mr : VFields) : Bool :=
  match VFields.lookup mr "__response" with
  | some (Value.map r) => (opaqueString (VFields.lookupOrNull r "data_key")).2
  | _ => false

/-! ## Concrete instances used by counterexamples and witnesses -/

/-- A driver oracle whose `BeginTxx` always succeeds. -/
def noBeginErr : Nat → Option String := fun _ => none

/-- A query oracle that scans every step into the sequence of its own
resolved arguments. -/
def execEcho : Nat → List Value → Option Value := fun _ args => some (vseq args)

/-- A request with no parameters at all. -/
def emptyParams : Params := { Path := [], Query := [] }

/-- One isolation-`none` transaction, one trivial step: a minimal
configuration that passes validation. -/
def cfg1 : QueryDef :=
  { Transactions := [{ DB := "main", Isolation := -1 }],
    Steps := [{ Transaction := 0, Query := "SELECT 1", Args := [], Map := [] }] }

/-- A compiled expression that returns the `args` entry of its `$context`
variable. -/
def argsEcho : Expr :=
  { run := fun _ c =>
      [EvalOut.val (match c with
        | Value.map fs => VFields.lookupOrNull fs "args"
        | _ => Value.null)] }

/-- One isolation-`none` transaction and one step whose second argument is
an expression reading `args` from the context. -/
def cfg2 : QueryDef :=
  { Transactions := [{ DB := "main", Isolation := -1 }],
    Steps := [{ Transaction := 0, Query := "SELECT ?, ?",
                Args := [ArgDef.ArgLiteral (Value.int 42), ArgDef.ExprParam argsEcho],
                Map := [] }] }

/-- One transaction at isolation level 2 (`read_committed`, which requires a
database transaction), one trivial step. -/
def cfg3 : QueryDef :=
  { Transactions := [{ DB := "main", Isolation := 2 }],
    Steps := [{ Transaction := 0, Query := "SELECT 1", Args := [], Map := [] }] }

/-- A compiled expression whose evaluation always yields an error. -/
def failingExpr : Expr := { run := fun _ _ => [EvalOut.err "boom"] }

/-- An endpoint whose `limit` query parameter has a failing mapping chain. -/
def mapFailHandler : Handler :=
  { Method := "POST", Path := "/t", BodyType := BodyType.NoBodyType,
    QueryParams := [("limit", { Map := [failingExpr] })], PathParams := [], Query := cfg1 }

/-- A request supplying `?limit=10` and an empty body. -/
def mapFailRequest : Request :=
  { queryParams := [("limit", ["10"])], pathParams := [], bodyData := Except.ok "" }

/-- A gojq compile oracle that always fails (the `expr` variant is not
exercised where this is used). -/
def noCompile : String → Except String Expr := fun _ => Except.error "no gojq"

/-- A final value whose envelope redirects the body to a field that itself
contains a `__response` key. -/
def dataKeyLeakOut : Value :=
  vmap [("__response", vmap [("data_key", Value.str "x")]),
        ("x", vmap [("__response", Value.bool true)])]

/-- An outer mapping carrying an envelope with status 204. -/
def status204Outer : VFields :=
  VFields.ofList [("__response", vmap [("status", Value.int 204)])]

/-- The envelope fields inside `status204Outer`. -/
def status204Env : VFields := VFields.ofList [("status", Value.int 204)]

/-- An outer mapping with an empty envelope and one data field. -/
def plainEnvOuter : VFields :=
  VFields.ofList [("__response", vmap []), ("a", Value.int 1)]

/-! ## Theorems -/

/-- C2: evaluation of `opaqueInt` at arbitrary-precision integers whose
magnitude does not fit in int64.  The claim (and the spec) say such inputs
yield `ok = false`; the code calls `big.Int.Int64` — whose out-of-range
result Go documents as undefined — and returns `ok = true` unconditionally:
`2^63` coerces to `(-2^63, true)` and `2^64` to `(0, true)`. -/
theorem opaqueInt_bigint_out_of_range_ok :
    opaqueInt (Value.bigint (2 ^ 63)) = (-(2 ^ 63), true) ∧
    opaqueInt (Value.bigint (2 ^ 64)) = (0, true) ∧
    opaqueInt (Value.bigint (-(2 ^ 64) - 1)) = (-1, true) := by
  refine ⟨by decide, by decide, by decide⟩

/-- C3: a POST request whose query-parameter mapping chain fails is answered
with status 500 and the generic `internal server error` body — not the 400
response annotated with the parameter name that the claim describes (and
that `Handler.Get` produces for the same failing parameters); in both
methods the pipeline does not execute. -/
theorem post_mapping_failure_replies_500 :
    Handler.Post mapFailHandler (2 ^ 63 - 1) noBeginErr execEcho none (fun _ => none)
        mapFailRequest
      = (httpError 500 "internal server error", false) ∧
    Handler.Get mapFailHandler (2 ^ 63 - 1) noBeginErr execEcho none mapFailRequest
      = (httpError 400
          ("bad request: failed to map query parameters: error mapping parameter \"limit\": "
            ++ "error applying mapping 0: error returned by mapping: boom"), false) := by
  exact ⟨rfl, rfl⟩

/-- C5: evaluation of the current `UnmarshalArgDef` (JSON variant) at a bare
JSON array: it is accepted as a `Literal` argument (the claim and the spec
say it is rejected; the superseded first revision of `config.go` and the
YAML variant do reject it).  A JSON object with more than one key is
rejected with `ErrBadArgDef`, as the claim says. -/
theorem unmarshalArgDef_accepts_bare_array :
    UnmarshalArgDef noCompile (vseq [Value.float 1, Value.float 2])
      = Except.ok (ArgDef.ArgLiteral (vseq [Value.float 1, Value.float 2])) ∧
    UnmarshalArgDef noCompile (vmap [("a", Value.int 1), ("b", Value.int 2)])
      = Except.error ErrBadArgDef := by
  exact ⟨rfl, rfl⟩

/-- C1 counterexample: a validated endpoint with a single isolation-`none`
transaction whose pipeline succeeds with a live context.  The claim says
the created transaction state is committed; `CommitOrRollback` leaves it
untouched (`noop`), because the pool-backed state is not a `Committer`. -/
theorem isolation_none_success_not_committed :
    QueryDef.Validate cfg1 = true ∧
    (computeResponse noBeginErr execEcho none cfg1 emptyParams Value.null).out.isOk = true ∧
    (computeResponse noBeginErr execEcho none cfg1 emptyParams Value.null).finalized
      = [(0, TxAction.noop)] ∧
    TxAction.noop ≠ TxAction.commit := by
  refine ⟨rfl, rfl, rfl, by decide⟩

/-- C4 counterexample: in a step whose arguments are the literal `42`
followed by an expression argument returning the context's `args` entry,
the expression observes an empty `args` (the previous step's value), not
`[42]` as the claim predicts — the resolved sequence is assigned to
`ctx.args` only after the whole argument loop. -/
theorem expr_arg_sees_previous_args :
    (computeResponse noBeginErr execEcho none cfg2 emptyParams Value.null).out
      = Except.ok (vseq [Value.int 42, vseq []]) ∧
    vseq [] ≠ vseq [Value.int 42] := by
  refine ⟨rfl, ?_⟩
  intro h
  simp [vseq, VList.ofList] at h

/-- C8 counterexample: a final value whose envelope's `data_key` redirects
the body to a field that itself contains a `__response` key.  The emitted
body is exactly that field's serialization and still contains
`__response` — only the outer mapping has its `__response` entry deleted. -/
theorem reply_data_key_leaks_response :
    (Handler.reply (2 ^ 63 - 1) dataKeyLeakOut).body
      = jsonMarshal (vmap [("__response", Value.bool true)]) ∧
    strContains (Handler.reply (2 ^ 63 - 1) dataKeyLeakOut).body "__response" = true ∧
    (Handler.reply (2 ^ 63 - 1) dataKeyLeakOut).status = 200 := by
  exact ⟨rfl, rfl, rfl⟩

/-- The status of an emitted JSON response is the status passed in. -/
lemma emitJSON_status (s : Int) (h : List (String × String)) (v : Value) :
    (emitJSON s h v).status = s := rfl

/-- The body of an emitted JSON response is the serialized value. -/
lemma emitJSON_body (s : Int) (h : List (String × String)) (v : Value) :
    (emitJSON s h v).body = jsonMarshal v := rfl

/-- A map-shaped output with a map-valued `__response` entry takes the
envelope branch of `Handler.reply`. -/
lemma reply_envelope_eq (maxInt : Int) (mr r : VFields)
    (h : VFields.lookup mr "__response" = some (Value.map r)) :
    Handler.reply maxInt (Value.map mr) = replyEnvelope maxInt mr r := by
  simp only [Handler.reply]
  rw [h]

/-- C10: a final value that is not a string-keyed mapping gets no envelope
interpretation: status 200, `Content-Type: application/json`,
`Content-Length` equal to the byte length of the serialized value, and a
body that is exactly its JSON serialization. -/
theorem reply_nonmap (maxInt : Int) (v : Value) (h : Value.isMap v = false) :
    Handler.reply maxInt v =
      { status := 200,
        headers := [("Content-Length", toString (jsonMarshal v).utf8ByteSize),
                    ("Content-Type", "application/json")],
        body := jsonMarshal v } := by
  cases v <;> first
    | rfl
    | simp [Value.isMap] at h

/-- C10 witness: the theorem applied to the string value `"hi"`. -/
theorem reply_nonmap_witness :
    Handler.reply 9 (Value.str "hi") =
      { status := 200,
        headers := [("Content-Length", "4"), ("Content-Type", "application/json")],
        body := "\"hi\"" } :=
  (reply_nonmap 9 (Value.str "hi") rfl).trans rfl

/-- C7: with a map-valued `__response` envelope present, the reply status is
the `as_int` coercion of its `status` entry whenever that coercion succeeds
and lies in `1 ≤ status ≤ maxInt` (`math.MaxInt`); a coercible status
outside that range produces the 500 `internal server error` reply; a
missing or non-coercible `status` leaves the status at 200. -/
theorem reply_status_spec (maxInt : Int) (mr r : VFields)
    (h : VFields.lookup mr "__response" = some (Value.map r)) :
    ((opaqueInt (VFields.lookupOrNull r "status")).2 = true →
      1 ≤ (opaqueInt (VFields.lookupOrNull r "status")).1 →
      (opaqueInt (VFields.lookupOrNull r "status")).1 ≤ maxInt →
      (Handler.reply maxInt (Value.map mr)).status
        = (opaqueInt (VFields.lookupOrNull r "status")).1) ∧
    ((opaqueInt (VFields.lookupOrNull r "status")).2 = true →
      ((opaqueInt (VFields.lookupOrNull r "status")).1 ≤ 0 ∨
        maxInt < (opaqueInt (VFields.lookupOrNull r "status")).1) →
      Handler.reply maxInt (Value.map mr) = httpError 500 "internal server error") ∧
    ((opaqueInt (VFields.lookupOrNull r "status")).2 = false →
      (Handler.reply maxInt (Value.map mr)).status = 200) := by
  have hre := reply_envelope_eq maxInt mr r h
  refine ⟨?_, ?_, ?_⟩
  · intro hok h1 h2
    rw [hre]
    simp only [replyEnvelope]
    rw [if_neg (by
      rintro ⟨-, hor⟩
      rcases hor with h3 | h3 <;> omega)]
    split <;> simp [emitJSON_status, hok]
  · intro hok hor
    rw [hre]
    simp only [replyEnvelope]
    rw [if_pos ⟨hok, by rcases hor with h3 | h3 <;> [exact Or.inr h3; exact Or.inl h3]⟩]
  · intro hnok
    rw [hre]
    simp only [replyEnvelope]
    rw [if_neg (by rintro ⟨c, -⟩; rw [hnok] at c; cases c)]
    split <;> simp [emitJSON_status, hnok]

/-- C7 witness: the theorem applied to an outer mapping whose envelope sets
status 204. -/
theorem reply_status_spec_witness :
    (Handler.reply (2 ^ 63 - 1) (Value.map status204Outer)).status = 204 :=
  ((reply_status_spec (2 ^ 63 - 1) status204Outer status204Env rfl).1 rfl (by decide)
    (by decide)).trans rfl

/-- Erasing a key removes every binding of it. -/
lemma lookup_erase : ∀ (m : VFields) (k : String),
    VFields.lookup (VFields.erase m k) k = none
  | VFields.nil, _ => rfl
  | VFields.cons k2 v tl, k => by
    by_cases hk : k2 = k
    · simp [VFields.erase, hk, lookup_erase tl k]
    · simp [VFields.erase, VFields.lookup, hk, lookup_erase tl k]

/-- C8 (amended): when no `data_key` redirect applies, the reply body (when
one is emitted at all — the out-of-range-status 500 reply aside) is the
serialization of the outer mapping with its `__response` entry deleted, and
that mapping has no `__response` key. -/
theorem reply_outer_body_drops_response (maxInt : Int) (mr : VFields)
    (h : dataKeyRedirects mr = false) :
    (Handler.reply maxInt (Value.map mr) = httpError 500 "internal server error" ∨
      (Handler.reply maxInt (Value.map mr)).body
        = jsonMarshal (Value.map (VFields.erase mr "__response"))) ∧
    VFields.lookup (VFields.erase mr "__response") "__response" = none := by
  refine ⟨?_, lookup_erase mr "__response"⟩
  rcases hl : VFields.lookup mr "__response" with _ | v
  case none =>
    right
    have he : Handler.reply maxInt (Value.map mr)
        = emitJSON 200 [] (Value.map (VFields.erase mr "__response")) := by
      simp only [Handler.reply]
      rw [hl]
    rw [he, emitJSON_body]
  case some =>
    cases v
    case map r =>
      have hdk : (opaqueString (VFields.lookupOrNull r "data_key")).2 = false := by
        simpa [dataKeyRedirects, hl] using h
      rw [reply_envelope_eq maxInt mr r hl]
      simp only [replyEnvelope]
      split
      · exact Or.inl rfl
      · right
        simp [hdk, emitJSON_body]
    all_goals
      right
      have he : Handler.reply maxInt (Value.map mr)
          = emitJSON 200 [] (Value.map (VFields.erase mr "__response")) := by
        simp only [Handler.reply]
        rw [hl]
      rw [he, emitJSON_body]

/-- C8 amended witness: the theorem applied to an outer mapping with an
empty envelope (no `data_key`) and one data field. -/
theorem reply_outer_body_drops_response_witness :
    (Handler.reply 9 (Value.map plainEnvOuter) = httpError 500 "internal server error" ∨
      (Handler.reply 9 (Value.map plainEnvOuter)).body
        = jsonMarshal (Value.map (VFields.erase plainEnvOuter "__response"))) ∧
    VFields.lookup (VFields.erase plainEnvOuter "__response") "__response" = none :=
  reply_outer_body_drops_response 9 plainEnvOuter rfl

/-- The error positions reported by `Mapping.applyFrom i`: an error arises
exactly from the first failing expression, after the prefix before it
threads successfully, and is annotated with its chain position. -/
lemma applyFrom_error_spec :
    ∀ (m : List Expr) (i : Nat) (v c : Value) (s : String),
    Mapping.applyFrom i m v c = Except.error s →
    ∃ k e err w, m.get? k = some e ∧ Mapping.applyFrom i (m.take k) v c = Except.ok w ∧
      Expr.Apply e w c = Except.error err ∧
      s = "error applying mapping " ++ toString (i + k) ++ ": " ++ err := by
  intro m
  induction m with
  | nil => intro i v c s hs; simp [Mapping.applyFrom] at hs
  | cons e rest ih =>
    intro i v c s hs
    simp only [Mapping.applyFrom] at hs
    cases he : Expr.Apply e v c with
    | error err =>
      simp only [he, Except.error.injEq] at hs
      refine ⟨0, e, err, v, rfl, rfl, he, ?_⟩
      rw [Nat.add_zero]
      exact hs.symm
    | ok w1 =>
      simp only [he] at hs
      obtain ⟨k, e2, err, w, hget, hok, herr, hmsg⟩ := ih (i + 1) w1 c s hs
      refine ⟨k + 1, e2, err, w, by simpa using hget, ?_, herr, ?_⟩
      · rw [List.take_succ_cons]
        simp only [Mapping.applyFrom, he]
        exact hok
      · have hn : i + 1 + k = i + (k + 1) := by omega
        rw [hmsg, hn]

/-- C6: the empty mapping chain is the identity on values; a non-empty chain
threads the value through the first expression and then the rest in order,
the first failure aborting; and every chain error carries the index of the
first failing expression — the prefix before it threads successfully to the
value that expression fails on. -/
theorem mapping_apply_chain :
    (∀ v c, Mapping.Apply [] v c = Except.ok v) ∧
    (∀ (e : Expr) (m : List Expr) (v c : Value),
      Mapping.Apply (e :: m) v c =
        (match Expr.Apply e v c with
         | Except.error err => Except.error ("error applying mapping 0: " ++ err)
         | Except.ok w => Mapping.applyFrom 1 m w c)) ∧
    (∀ (m : List Expr) (v c : Value) (s : String), Mapping.Apply m v c = Except.error s →
      ∃ k e err w, m.get? k = some e ∧ Mapping.applyFrom 0 (m.take k) v c = Except.ok w ∧
        Expr.Apply e w c = Except.error err ∧
        s = "error applying mapping " ++ toString k ++ ": " ++ err) := by
  refine ⟨fun v c => rfl, ?_, ?_⟩
  · intro e m v c
    cases he : Expr.Apply e v c <;> (simp [Mapping.Apply, Mapping.applyFrom, he]; try rfl)
  · intro m v c s hs
    cases m with
    | nil => simp [Mapping.Apply] at hs
    | cons e rest =>
      simp [Mapping.Apply] at hs
      obtain ⟨k, e2, err, w, hget, hok, herr, hmsg⟩ :=
        applyFrom_error_spec (e :: rest) 0 v c s hs
      exact ⟨k, e2, err, w, hget, hok, herr, by rwa [Nat.zero_add] at hmsg⟩

/-- C6 witness: the theorem's error characterization applied to a one-element
chain whose expression fails. -/
theorem mapping_apply_chain_witness :
    ∃ k e err w, [failingExpr].get? k = some e ∧
      Mapping.applyFrom 0 ([failingExpr].take k) Value.null Value.null = Except.ok w ∧
      Expr.Apply e w Value.null = Except.error err ∧
      "error applying mapping 0: error returned by mapping: boom"
        = "error applying mapping " ++ toString k ++ ": " ++ err :=
  mapping_apply_chain.2.2 [failingExpr] Value.null Value.null
    "error applying mapping 0: error returned by mapping: boom" rfl

/-- Resolving a step's arguments: the resolved list is positionally the
resolution of each argument definition against the one fixed pre-step
context. -/
lemma resolveArgs_spec (c : argContext) :
    ∀ (ads : List ArgDef) (vs : List Value), resolveArgs c ads = Except.ok vs →
    vs.length = ads.length ∧
    ∀ p ad, ads.get? p = some ad →
      ∃ v, vs.get? p = some v ∧ argContext.Resolve c ad = Except.ok v := by
  intro ads
  induction ads with
  | nil =>
    intro vs h
    simp only [resolveArgs, Except.ok.injEq] at h
    subst h
    exact ⟨rfl, by intro p ad hget; simp at hget⟩
  | cons ad rest ih =>
    intro vs h
    simp only [resolveArgs] at h
    cases hr : argContext.Resolve c ad with
    | error e => simp [hr] at h
    | ok v =>
      simp only [hr] at h
      cases hrest : resolveArgs c rest with
      | error e => simp [hrest] at h
      | ok vs2 =>
        simp only [hrest, Except.ok.injEq] at h
        subst h
        obtain ⟨hlen, hall⟩ := ih vs2 hrest
        refine ⟨by simp [hlen], ?_⟩
        intro p a hget
        cases p with
        | zero =>
          simp only [List.get?_cons_zero, Option.some.injEq] at hget
          subst hget
          exact ⟨v, rfl, hr⟩
        | succ p =>
          simp only [List.get?_cons_succ] at hget
          obtain ⟨w, hw, hres⟩ := hall p a hget
          exact ⟨w, by simpa using hw, hres⟩

/-- C4 (amended): every argument of a step — in particular every
expression-typed argument, at any position — is resolved against the same
pre-step opaque context (whose `args` entry is the previous step's resolved
sequence; the current step's values are assigned to `args` only after the
whole argument loop, becoming visible to the step's result mapping and to
later steps). -/
theorem resolveArgs_fixed_context (c : argContext) (ads : List ArgDef) (vs : List Value)
    (h : resolveArgs c ads = Except.ok vs) :
    vs.length = ads.length ∧
    (∀ p ad, ads.get? p = some ad →
      ∃ v, vs.get? p = some v ∧ argContext.Resolve c ad = Except.ok v) ∧
    (∀ p e, ads.get? p = some (ArgDef.ExprParam e) →
      ∃ v, vs.get? p = some v ∧
        Expr.Apply e (argContext.Opaque c) (argContext.Opaque c) = Except.ok v) := by
  obtain ⟨hlen, hall⟩ := resolveArgs_spec c ads vs h
  refine ⟨hlen, hall, ?_⟩
  intro p e hget
  obtain ⟨v, hv, hres⟩ := hall p (ArgDef.ExprParam e) hget
  exact ⟨v, hv, hres⟩

/-- C4 witness: the theorem applied to a singleton argument list holding an
expression argument, resolved in the initial context. -/
theorem resolveArgs_fixed_context_witness :
    ∃ v, ([vseq []].get? 0 = some v) ∧
      Expr.Apply argsEcho (argContext.Opaque (initialArgContext emptyParams Value.null))
          (argContext.Opaque (initialArgContext emptyParams Value.null)) = Except.ok v :=
  (resolveArgs_fixed_context (initialArgContext emptyParams Value.null)
      [ArgDef.ExprParam argsEcho] [vseq []] rfl).2.2 0 argsEcho rfl

/-- A successful step loop appends exactly one output per step. -/
lemma runSteps_ok_outputs (exec : Nat → List Value → Option Value) (n : Nat) :
    ∀ (steps : List StepDef) (si : Nat) (c c' : argContext),
    runSteps exec n steps si c = Except.ok c' →
    c'.outputs.length = c.outputs.length + steps.length := by
  intro steps
  induction steps with
  | nil =>
    intro si c c' h
    simp only [runSteps, Except.ok.injEq] at h
    subst h
    simp
  | cons s rest ih =>
    intro si c c' h
    simp only [runSteps] at h
    split at h
    · simp at h
    · split at h
      · simp at h
      · split at h
        · simp at h
        · split at h
          · simp at h
          · have := ih _ _ _ h
            simp only [List.length_append, List.length_cons, List.length_nil] at this ⊢
            omega

/-- With every step's transaction index in bounds, the step loop never
produces the index-out-of-range panic. -/
lemma runSteps_no_panic (exec : Nat → List Value → Option Value) (n : Nat) :
    ∀ (steps : List StepDef) (si : Nat) (c : argContext),
    (∀ s ∈ steps, 0 ≤ s.Transaction ∧ s.Transaction < (n : Int)) →
    runSteps exec n steps si c ≠ Except.error outOfRangeMsg := by
  intro steps
  induction steps with
  | nil => intro si c _ h; simp [runSteps] at h
  | cons s rest ih =>
    intro si c hb h
    simp only [runSteps] at h
    split at h
    · rename_i hcond
      have := hb s (by simp)
      rcases hcond with h1 | h1 <;> omega
    · split at h
      · injection h with h2
        exact absurd h2 (by decide)
      · split at h
        · injection h with h2
          exact absurd h2 (by decide)
        · split at h
          · injection h with h2
            exact absurd h2 (by decide)
          · exact ih _ _ (fun t ht => hb t (by simp [ht])) h

/-- Unfolding of `QueryDef.Validate` into its three propositional
conjuncts. -/
lemma validate_iff (qd : QueryDef) :
    QueryDef.Validate qd = true ↔
      qd.Transactions.length ≠ 0 ∧
      (∀ sd ∈ qd.Steps, 0 ≤ sd.Transaction ∧
        sd.Transaction < (qd.Transactions.length : Int)) ∧
      (∀ i < qd.Transactions.length, ∃ sd ∈ qd.Steps, sd.Transaction = (i : Int)) := by
  simp only [QueryDef.Validate, Bool.and_eq_true, decide_eq_true_iff, List.all_eq_true,
    List.any_eq_true, List.mem_range, beq_iff_eq, and_assoc]

/-- C9: a query definition that passes validation has a non-empty step list
with every step's transaction index in bounds; an empty step list, an empty
transaction list, or an out-of-bounds step reference each fail validation;
and on a validated definition `computeResponse` never produces the
index-out-of-range panic (in particular `outputs[len(outputs)-1]` is never
taken on an empty sequence). -/
theorem validate_guarantees (qd : QueryDef) :
    (QueryDef.Validate qd = true →
      qd.Steps ≠ [] ∧
        ∀ sd ∈ qd.Steps, 0 ≤ sd.Transaction ∧
          sd.Transaction < (qd.Transactions.length : Int)) ∧
    (qd.Steps = [] → QueryDef.Validate qd = false) ∧
    (qd.Transactions = [] → QueryDef.Validate qd = false) ∧
    (∀ sd ∈ qd.Steps,
      (sd.Transaction < 0 ∨ (qd.Transactions.length : Int) ≤ sd.Transaction) →
      QueryDef.Validate qd = false) ∧
    (∀ beginErr exec ctxErr params body, QueryDef.Validate qd = true →
      (computeResponse beginErr exec ctxErr qd params body).out
        ≠ Except.error outOfRangeMsg) := by
  have hsteps : QueryDef.Validate qd = true → qd.Steps ≠ [] := by
    intro hv
    obtain ⟨hn, -, hcover⟩ := (validate_iff qd).mp hv
    obtain ⟨sd, hsd, -⟩ := hcover 0 (Nat.pos_of_ne_zero hn)
    intro h0
    rw [h0] at hsd
    simp at hsd
  refine ⟨fun hv => ⟨hsteps hv, ((validate_iff qd).mp hv).2.1⟩, ?_, ?_, ?_, ?_⟩
  · intro h0
    cases hv : QueryDef.Validate qd
    · rfl
    · exact absurd h0 (hsteps hv)
  · intro h0
    simp [QueryDef.Validate, h0]
  · intro sd hm hbad
    cases hv : QueryDef.Validate qd
    · rfl
    · have := ((validate_iff qd).mp hv).2.1 sd hm
      rcases hbad with h1 | h1 <;> omega
  · intro beginErr exec ctxErr params body hv
    obtain ⟨-, hb, -⟩ := (validate_iff qd).mp hv
    have hne := hsteps hv
    simp only [computeResponse]
    cases hs2 : (startTransactions beginErr 0 qd.Transactions).2 with
    | some e =>
      intro h
      injection h with h2
      exact absurd h2 (by decide)
    | none =>
      cases hrun : runSteps exec qd.Transactions.length qd.Steps 0
          (initialArgContext params body) with
      | error e =>
        intro h
        injection h with h2
        rw [h2] at hrun
        exact runSteps_no_panic exec qd.Transactions.length qd.Steps 0
          (initialArgContext params body) hb hrun
      | ok c =>
        have hlen := runSteps_ok_outputs exec qd.Transactions.length qd.Steps 0
          (initialArgContext params body) c hrun
        cases hlast : c.outputs.getLast? with
        | some v => simp [hlast]
        | none =>
          exfalso
          rw [List.getLast?_eq_none_iff] at hlast
          rw [hlast] at hlen
          simp [initialArgContext] at hlen
          exact hne (List.length_eq_zero.mp hlen.symm)

/-- C9 witness: the theorem applied to the concrete validated configuration
`cfg1`. -/
theorem validate_guarantees_witness :
    cfg1.Steps ≠ [] ∧
      (computeResponse noBeginErr execEcho none cfg1 emptyParams Value.null).out
        ≠ Except.error outOfRangeMsg :=
  ⟨((validate_guarantees cfg1).1 rfl).1,
    (validate_guarantees cfg1).2.2.2.2 noBeginErr execEcho none emptyParams Value.null rfl⟩

/-- The finalization loop touches exactly the indexes of the created
prefix, in order. -/
lemma closeFrom_map_fst (c e : Option String) :
    ∀ (l : List transactionState) (i : Nat),
    (closeFrom c e i l).map Prod.fst = List.range' i l.length := by
  intro l
  induction l with
  | nil => intro i; rfl
  | cons t rest ih => intro i; simp [closeFrom, ih, List.range'_succ]

/-- Membership in the finalization list. -/
lemma mem_closeFrom (c e : Option String) :
    ∀ (l : List transactionState) (i ti : Nat) (a : TxAction),
    ((ti, a) ∈ closeFrom c e i l ↔
      ∃ j t, l.get? j = some t ∧ ti = i + j ∧
        a = transactionState.CommitOrRollback t c e) := by
  intro l
  induction l with
  | nil => intro i ti a; simp [closeFrom]
  | cons t rest ih =>
    intro i ti a
    simp only [closeFrom, List.mem_cons, ih, Prod.mk.injEq]
    constructor
    · rintro (⟨hti, ha⟩ | ⟨j, t2, hget, hti, ha⟩)
      · exact ⟨0, t, rfl, by omega, ha⟩
      · exact ⟨j + 1, t2, by simpa using hget, by omega, ha⟩
    · rintro ⟨j, t2, hget, hti, ha⟩
      cases j with
      | zero =>
        simp only [List.get?_cons_zero, Option.some.injEq] at hget
        subst hget
        exact Or.inl ⟨by omega, ha⟩
      | succ j =>
        simp only [List.get?_cons_succ] at hget
        exact Or.inr ⟨j, t2, hget, by omega, ha⟩

/-- A successfully created transaction state records its definition's
isolation level. -/
lemma newTransaction_ok (b : Option String) (td : TransactionDef) (t : transactionState)
    (h : newTransaction b td = Except.ok t) : t.isolation = td.Isolation := by
  unfold newTransaction at h
  split at h
  · injection h with h2
    subst h2
    rfl
  · cases b with
    | none => injection h with h2; subst h2; rfl
    | some e => simp at h

/-- The transaction-opening loop creates a prefix of the declared
transactions, complete exactly when no error occurred, each created state
carrying its definition's isolation. -/
lemma startTransactions_spec (beginErr : Nat → Option String) :
    ∀ (tds : List TransactionDef) (i : Nat),
    (startTransactions beginErr i tds).1.length ≤ tds.length ∧
    ((startTransactions beginErr i tds).2 = none →
      (startTransactions beginErr i tds).1.length = tds.length) ∧
    (∀ k t, (startTransactions beginErr i tds).1.get? k = some t →
      ∃ td, tds.get? k = some td ∧ t.isolation = td.Isolation) := by
  intro tds
  induction tds with
  | nil =>
    intro i
    refine ⟨Nat.le_refl _, fun _ => rfl, ?_⟩
    intro k t h
    simp [startTransactions] at h
  | cons td rest ih =>
    intro i
    simp only [startTransactions]
    cases hn : newTransaction (beginErr i) td with
    | error e =>
      refine ⟨by simp, by simp, ?_⟩
      intro k t h
      simp at h
    | ok t0 =>
      obtain ⟨ih1, ih2, ih3⟩ := ih (i + 1)
      refine ⟨by simpa using ih1, by intro h2; simpa using ih2 h2, ?_⟩
      intro k t h
      cases k with
      | zero =>
        simp only [List.get?_cons_zero, Option.some.injEq] at h
        subst h
        exact ⟨td, rfl, newTransaction_ok _ _ _ hn⟩
      | succ k =>
        simp only [List.get?_cons_succ] at h
        obtain ⟨td2, hget, hiso⟩ := ih3 k t h
        exact ⟨td2, by simpa using hget, hiso⟩

/-- `CommitOrRollback` commits exactly for a transaction-backed state with a
nil pipeline error and a live context. -/
lemma commitOrRollback_eq_commit (t : transactionState) (ctxErr err : Option String) :
    transactionState.CommitOrRollback t ctxErr err = TxAction.commit ↔
      IsolationLevel.RequiresTranscation t.isolation = true ∧ err = none ∧ ctxErr = none := by
  unfold transactionState.CommitOrRollback
  cases err <;> cases ctxErr <;>
    cases hreq : IsolationLevel.RequiresTranscation t.isolation <;> simp [hreq]

/-- `CommitOrRollback` rolls back exactly for a transaction-backed state
with a pipeline error or a cancelled context. -/
lemma commitOrRollback_eq_rollback (t : transactionState) (ctxErr err : Option String) :
    transactionState.CommitOrRollback t ctxErr err = TxAction.rollback ↔
      IsolationLevel.RequiresTranscation t.isolation = true ∧ (err ≠ none ∨ ctxErr ≠ none) := by
  unfold transactionState.CommitOrRollback
  cases err <;> cases ctxErr <;>
    cases hreq : IsolationLevel.RequiresTranscation t.isolation <;> simp [hreq]

/-- `CommitOrRollback` is a no-op exactly for a pool-backed state. -/
lemma commitOrRollback_eq_noop (t : transactionState) (ctxErr err : Option String) :
    transactionState.CommitOrRollback t ctxErr err = TxAction.noop ↔
      IsolationLevel.RequiresTranscation t.isolation = false := by
  unfold transactionState.CommitOrRollback
  cases err <;> cases ctxErr <;>
    cases hreq : IsolationLevel.RequiresTranscation t.isolation <;> simp [hreq]

/-- The pipeline error is nil exactly when the returned output is a value. -/
lemma errOf_eq_none (o : Except String Value) : errOf o = none ↔ o.isOk = true := by
  cases o <;> simp [errOf, Except.isOk, Except.toBool]

/-- A successful `computeResponse` had all its transaction openings
succeed. -/
lemma computeResponse_ok_start (beginErr : Nat → Option String)
    (exec : Nat → List Value → Option Value) (ctxErr : Option String) (q : QueryDef)
    (params : Params) (body : Value)
    (h : (computeResponse beginErr exec ctxErr q params body).out.isOk = true) :
    (startTransactions beginErr 0 q.Transactions).2 = none := by
  revert h
  simp only [computeResponse]
  cases hs : (startTransactions beginErr 0 q.Transactions).2
  · intro _; rfl
  · intro h; simp [Except.isOk, Except.toBool] at h

/-- C1 (amended): every transaction state created by `computeResponse` is
finalized exactly once by `CommitOrRollback`, in declaration order (states
never created because an earlier opening failed are not finalized; on
success all are).  A state is committed iff its declaration requires a
database transaction, the pipeline completed without error, and the
request context is not cancelled; a state is rolled back only if it
requires a transaction and the pipeline erred or the context was
cancelled; an isolation-`none` state is always finalized as a no-op; and
if the pipeline errs, no transaction is committed. -/
theorem computeResponse_commit_rollback (beginErr : Nat → Option String)
    (exec : Nat → List Value → Option Value) (ctxErr : Option String) (q : QueryDef)
    (params : Params) (body : Value) :
    let r := computeResponse beginErr exec ctxErr q params body
    (∃ k, k ≤ q.Transactions.length ∧ r.finalized.map Prod.fst = List.range k ∧
      (r.out.isOk = true → k = q.Transactions.length)) ∧
    (∀ ti, (ti, TxAction.commit) ∈ r.finalized ↔
      (r.out.isOk = true ∧ ctxErr = none ∧
        ∃ td, q.Transactions.get? ti = some td ∧
          IsolationLevel.RequiresTranscation td.Isolation = true)) ∧
    (∀ ti, (ti, TxAction.rollback) ∈ r.finalized →
      ((r.out.isOk = false ∨ ctxErr ≠ none) ∧
        ∃ td, q.Transactions.get? ti = some td ∧
          IsolationLevel.RequiresTranscation td.Isolation = true)) ∧
    (∀ ti, (ti, TxAction.noop) ∈ r.finalized →
      ∃ td, q.Transactions.get? ti = some td ∧
        IsolationLevel.RequiresTranscation td.Isolation = false) ∧
    (r.out.isOk = false → ∀ ti, (ti, TxAction.commit) ∉ r.finalized) := by
  intro r
  obtain ⟨hle, hfull, hiso⟩ := startTransactions_spec beginErr q.Transactions 0
  have hfin : r.finalized
      = closeFrom ctxErr (errOf r.out) 0 (startTransactions beginErr 0 q.Transactions).1 := rfl
  have hcommit : ∀ ti, (ti, TxAction.commit) ∈ r.finalized ↔
      (r.out.isOk = true ∧ ctxErr = none ∧
        ∃ td, q.Transactions.get? ti = some td ∧
          IsolationLevel.RequiresTranscation td.Isolation = true) := by
    intro ti
    rw [hfin, mem_closeFrom]
    constructor
    · rintro ⟨j, t, hget, hti, ha⟩
      obtain ⟨hreq, herr, hctx⟩ := (commitOrRollback_eq_commit t ctxErr (errOf r.out)).mp ha.symm
      obtain ⟨td, htd, htiso⟩ := hiso j t hget
      refine ⟨(errOf_eq_none r.out).mp herr, hctx, td, ?_, ?_⟩
      · rw [hti]; simpa using htd
      · rw [← htiso]; exact hreq
    · rintro ⟨hok, hctx, td, htd, hreq⟩
      have hlen : (startTransactions beginErr 0 q.Transactions).1.length
          = q.Transactions.length :=
        hfull (computeResponse_ok_start beginErr exec ctxErr q params body hok)
      have hti_lt : ti < q.Transactions.length := by
        by_contra hge
        rw [List.get?_eq_none.mpr (by omega)] at htd
        cases htd
      cases hget : (startTransactions beginErr 0 q.Transactions).1.get? ti with
      | none =>
        rw [List.get?_eq_none] at hget
        omega
      | some t =>
        obtain ⟨td2, htd2, htiso⟩ := hiso ti t hget
        rw [htd] at htd2
        injection htd2 with htd2
        refine ⟨ti, t, hget, by omega, ?_⟩
        exact ((commitOrRollback_eq_commit t ctxErr (errOf r.out)).mpr
          ⟨by rw [htiso, ← htd2]; exact hreq, (errOf_eq_none r.out).mpr hok, hctx⟩).symm
  refine ⟨?_, hcommit, ?_, ?_, ?_⟩
  · refine ⟨(startTransactions beginErr 0 q.Transactions).1.length, hle, ?_, ?_⟩
    · rw [hfin, closeFrom_map_fst, ← List.range_eq_range']
    · intro hok
      exact hfull (computeResponse_ok_start beginErr exec ctxErr q params body hok)
  · intro ti hmem
    rw [hfin, mem_closeFrom] at hmem
    obtain ⟨j, t, hget, hti, ha⟩ := hmem
    obtain ⟨hreq, hor⟩ := (commitOrRollback_eq_rollback t ctxErr (errOf r.out)).mp ha.symm
    obtain ⟨td, htd, htiso⟩ := hiso j t hget
    refine ⟨?_, td, by rw [hti]; simpa using htd, by rw [← htiso]; exact hreq⟩
    rcases hor with h1 | h1
    · left
      rcases ho : r.out with e | v
      · simp [Except.isOk, Except.toBool]
      · exact absurd ((errOf_eq_none r.out).mpr (by rw [ho]; rfl)) h1
    · exact Or.inr h1
  · intro ti hmem
    rw [hfin, mem_closeFrom] at hmem
    obtain ⟨j, t, hget, hti, ha⟩ := hmem
    have hreq := (commitOrRollback_eq_noop t ctxErr (errOf r.out)).mp ha.symm
    obtain ⟨td, htd, htiso⟩ := hiso j t hget
    exact ⟨td, by rw [hti]; simpa using htd, by rw [← htiso]; exact hreq⟩
  · intro hfalse ti hmem
    have := (hcommit ti).mp hmem
    rw [hfalse] at this
    exact absurd this.1 (by simp)

/-- C1 witness: with a transaction-requiring isolation level, a successful
pipeline and a live context, the (unique) transaction is committed. -/
theorem computeResponse_commit_rollback_witness :
    (0, TxAction.commit)
      ∈ (computeResponse noBeginErr execEcho none cfg3 emptyParams Value.null).finalized :=
  ((computeResponse_commit_rollback noBeginErr execEcho none cfg3 emptyParams
      Value.null).2.1 0).mpr
    ⟨rfl, rfl, { DB := "main", Isolation := 2 }, rfl, rfl⟩

end Chisel
